import Mathlib

/-!
Verification of the IPPL particle-in-cell core against its specification.

The development shallowly embeds the relevant parts of the sources:

* `src/src/FFT/FFT.hpp` — the FFT service: heffte plan option resolution
  (`setup`), staging-buffer and workspace growth, and the four `transform`
  member functions (complex-to-complex, real-to-complex, sine, cosine) with
  their ghost-stripping staging copies and direction dispatch.
* `src/alpine/FieldSolver.hpp` — `initSolver` / `runSolver` dispatch on the
  solver-type string.
* `src/alpine/LandauDampingManager.h` — `scatterCIC` and `LeapFrogStep`.
* `src/unit_tests/PIC/PIC.cpp` — the scatter conservation test.

Machine integers hold sizes that fit comfortably, so they are embedded as
`ℕ`/`ℤ`; floating-point arithmetic is embedded as exact real/complex
arithmetic.  Fields with ghost layers are total functions on triples of
naturals whose interior is the box `[g, g + n)` per axis, matching the
`MDRangePolicy({nghost,...}, {extent - nghost,...})` loops of the source.
-/

namespace ippl

/-! ## Heffte plan options (FFT.hpp, `setup`) -/

/-- The heffte reshape algorithms selected by the `switch` in
`FFT<*,Dim,T>::setup` (FFT.hpp lines 107-124 and clones). -/
inductive ReshapeAlg : Type
  | alltoall
  | alltoallv
  | p2p
  | p2p_plined
  deriving DecidableEq, Repr

/-- The slice of `heffte::plan_options` that `setup` writes. -/
structure PlanOptions : Type where
  use_pencils : Bool
  use_reorder : Bool
  algorithm : ReshapeAlg
  deriving DecidableEq, Repr

/-- Modelled from the spec: the `FFTComm` enumeration values `a2a`, `a2av`,
`p2p`, `p2p_pl` come from `FFT/FFT.h`, which is not among the sources; the
spec lists the enumeration {ALL_TO_ALL, ALL_TO_ALL_V, P2P, P2P_PIPELINED} and
the `comm` key is an `int` in the parameter list, so the four tags are
embedded as the integers 0,1,2,3 in declaration order. -/
def a2a : ℤ := 0

/-- Modelled from the spec: see `a2a`. -/
def a2av : ℤ := 1

/-- Modelled from the spec: see `a2a`. -/
def p2p : ℤ := 2

/-- Modelled from the spec: see `a2a`. -/
def p2p_pl : ℤ := 3

/-- The communicator an FFT plan is built over: `MPI_COMM_SELF`
(`FFT<RCTransform>::setup`, FFT.hpp line 324) or the world communicator
`Ippl::getComm()` (CC line 128, Sine line 530, Cos line 695). -/
inductive CommTag : Type
  | self
  | world
  deriving DecidableEq, Repr

/-- The data `setup` passes to the heffte plan constructor: the resolved
options and the communicator. -/
structure HefftePlan : Type where
  options : PlanOptions
  comm : CommTag
  deriving DecidableEq, Repr

/-- Option resolution shared verbatim by the four `FFT<*,Dim,T>::setup`
bodies (FFT.hpp lines 97-125, 293-321, 500-527, 665-692): start from the
backend defaults; when `use_heffte_defaults` is false, overwrite
`use_pencils` and `use_reorder` and switch on `comm`, throwing
`IpplException("FFT::setup", "Unrecognized heffte communication type")` on a
tag outside the enumeration. -/
def resolveOptions (defaults : PlanOptions) (useHeffteDefaults : Bool)
    (usePencils useReorder : Bool) (comm : ℤ) : Except String PlanOptions :=
  if useHeffteDefaults = false then
    if comm = a2a then .ok ⟨usePencils, useReorder, .alltoall⟩
    else if comm = a2av then .ok ⟨usePencils, useReorder, .alltoallv⟩
    else if comm = p2p then .ok ⟨usePencils, useReorder, .p2p⟩
    else if comm = p2p_pl then .ok ⟨usePencils, useReorder, .p2p_plined⟩
    else .error "Unrecognized heffte communication type"
  else
    .ok defaults

/-- `FFT<CCTransform,Dim,T>::setup`: resolve options, then build the heffte
plan over the world communicator (`Ippl::getComm()`, FFT.hpp line 128). -/
def setupCC (defaults : PlanOptions) (useHeffteDefaults usePencils useReorder : Bool)
    (comm : ℤ) : Except String HefftePlan :=
  (resolveOptions defaults useHeffteDefaults usePencils useReorder comm).map
    fun o => ⟨o, .world⟩

/-- `FFT<RCTransform,Dim,T>::setup`: resolve options, then build the heffte
r2c plan over `MPI_COMM_SELF` (FFT.hpp line 324). -/
def setupRC (defaults : PlanOptions) (useHeffteDefaults usePencils useReorder : Bool)
    (comm : ℤ) : Except String HefftePlan :=
  (resolveOptions defaults useHeffteDefaults usePencils useReorder comm).map
    fun o => ⟨o, .self⟩

/-- `FFT<SineTransform,Dim,T>::setup`: world communicator (FFT.hpp 530). -/
def setupSine (defaults : PlanOptions) (useHeffteDefaults usePencils useReorder : Bool)
    (comm : ℤ) : Except String HefftePlan :=
  (resolveOptions defaults useHeffteDefaults usePencils useReorder comm).map
    fun o => ⟨o, .world⟩

/-- `FFT<CosTransform,Dim,T>::setup`: world communicator (FFT.hpp 695). -/
def setupCos (defaults : PlanOptions) (useHeffteDefaults usePencils useReorder : Bool)
    (comm : ℤ) : Except String HefftePlan :=
  (resolveOptions defaults useHeffteDefaults usePencils useReorder comm).map
    fun o => ⟨o, .world⟩

/-- Whether an `Except` computation ended in a raised error. -/
def isErr {ε α : Type} : Except ε α → Bool
  | .error _ => true
  | .ok _ => false

/-- Modelled from the spec: the set of ranks an MPI communicator spans.
`MPI_COMM_SELF` contains only the calling rank; the world communicator
contains all `nRanks` ranks.  The MPI library is external to the sources. -/
def commRanks (nRanks rank : ℕ) : CommTag → Finset ℕ
  | .self => {rank}
  | .world => Finset.range nRanks

/-! ## Staging-buffer and workspace growth (FFT.hpp, constructors/`setup`) -/

/-- Size of the staging buffer after a plan construction:
`if (tempField_m.size() < lDom.size()) Kokkos::realloc(tempField_m, ...)`
(FFT.hpp lines 77-79, 267-272, 480-482, 645-647); `need` is the local
domain size, and a reallocation produces exactly that size. -/
def tempFieldSize (cur need : ℕ) : ℕ :=
  if cur < need then need else cur

/-- Size of the backend workspace after `setup`:
`if (workspace_m.size() < heffte_m->size_workspace()) workspace_m = ...`
(FFT.hpp lines 131-133, 328-329, 533-534, 698-699). -/
def workspaceSize (cur need : ℕ) : ℕ :=
  if cur < need then need else cur

/-! ## FFT transforms (FFT.hpp, `transform`) -/

/-- The dense ghost-free staging index space of one transform: the local
domain lengths per axis. -/
abbrev Stage (n0 n1 n2 : ℕ) : Type := Fin n0 × Fin n1 × Fin n2

/-- The "copy from Kokkos" staging loop of `transform` (FFT.hpp lines
162-176 and clones): `tempField(i-nghost, j-nghost, k-nghost) = fview(i, j,
k)` for `i, j, k` ranging over `[nghost, extent - nghost)`, i.e. the staged
cell `(a, b, c)` reads the field at `(g + a, g + b, g + c)`. -/
def copyIn {α : Type} (g n0 n1 n2 : ℕ) (f : ℕ → ℕ → ℕ → α) : Stage n0 n1 n2 → α :=
  fun a => f (g + a.1.val) (g + a.2.1.val) (g + a.2.2.val)

/-- The "copy to Kokkos" loop of `transform` (FFT.hpp lines 198-212 and
clones): interior cells `(i, j, k)` with `g ≤ i < g + n` per axis receive
the staged result at `(i - g, j - g, k - g)`; all other cells keep their
previous value. -/
def copyOut {α : Type} (g n0 n1 n2 : ℕ) (t : Stage n0 n1 n2 → α)
    (f : ℕ → ℕ → ℕ → α) : ℕ → ℕ → ℕ → α :=
  fun i j k =>
    if h : g ≤ i ∧ i < g + n0 ∧ g ≤ j ∧ j < g + n1 ∧ g ≤ k ∧ k < g + n2 then
      t (⟨i - g, by omega⟩, ⟨j - g, by omega⟩, ⟨k - g, by omega⟩)
    else f i j k

/-- A cell `(i, j, k)` of the viewed array lies in the interior (non-ghost)
box of a field with local lengths `n0, n1, n2` and ghost width `g`. -/
def inInterior (g n0 n1 n2 i j k : ℕ) : Prop :=
  g ≤ i ∧ i < g + n0 ∧ g ≤ j ∧ j < g + n1 ∧ g ≤ k ∧ k < g + n2

instance (g n0 n1 n2 i j k : ℕ) : Decidable (inInterior g n0 n1 n2 i j k) := by
  unfold inInterior; infer_instance

/-- Common shape of the in-place `transform` bodies (CC lines 138-214, Sine
538-606, Cos 704-772): stage the interior, dispatch on `direction` (`1`
forward with full scaling, `-1` backward with no scaling, anything else
throws `std::logic_error("Only 1:forward and -1:backward are allowed as
directions")` before the copy-out loop runs, leaving the field unchanged),
then copy the staged result back into the interior. -/
def stagedTransform {α : Type} (g n0 n1 n2 : ℕ)
    (fwd bwd : (Stage n0 n1 n2 → α) → Stage n0 n1 n2 → α)
    (direction : ℤ) (f : ℕ → ℕ → ℕ → α) : Option String × (ℕ → ℕ → ℕ → α) :=
  let temp := copyIn g n0 n1 n2 f
  if direction = 1 then
    (none, copyOut g n0 n1 n2 (fwd temp) f)
  else if direction = -1 then
    (none, copyOut g n0 n1 n2 (bwd temp) f)
  else
    (some "Only 1:forward and -1:backward are allowed as directions", f)

/-- Modelled from the spec: the heffte backend (external to this
repository) computes the 3D discrete Fourier transform; per the spec "the
forward normalization applies 1/N; the inverse applies no scaling".  The
kernel is parametrized by one primitive root of unity per axis
(`ζ = exp(2πi/n)` for the concrete backend); the forward kernel uses the
inverse root and multiplies by `1/(n0·n1·n2)` (`heffte::scale::full`). -/
noncomputable def dftForward {n0 n1 n2 : ℕ} (ζ0 ζ1 ζ2 : ℂ)
    (f : Stage n0 n1 n2 → ℂ) : Stage n0 n1 n2 → ℂ :=
  fun k => ((n0 * n1 * n2 : ℕ) : ℂ)⁻¹ *
    ∑ j : Stage n0 n1 n2,
      (ζ0⁻¹ ^ (j.1.val * k.1.val) * ζ1⁻¹ ^ (j.2.1.val * k.2.1.val) *
        ζ2⁻¹ ^ (j.2.2.val * k.2.2.val)) * f j

/-- Modelled from the spec: the backward (inverse) 3D DFT of the heffte
backend, applied with `heffte::scale::none`, i.e. unnormalized. -/
noncomputable def dftBackward {n0 n1 n2 : ℕ} (ζ0 ζ1 ζ2 : ℂ)
    (f : Stage n0 n1 n2 → ℂ) : Stage n0 n1 n2 → ℂ :=
  fun k =>
    ∑ j : Stage n0 n1 n2,
      (ζ0 ^ (j.1.val * k.1.val) * ζ1 ^ (j.2.1.val * k.2.1.val) *
        ζ2 ^ (j.2.2.val * k.2.2.val)) * f j

/-- `FFT<CCTransform,Dim,T>::transform` (FFT.hpp lines 138-214): in-place
complex-to-complex transform with the heffte DFT backend. -/
noncomputable def transformCC (g n0 n1 n2 : ℕ) (ζ0 ζ1 ζ2 : ℂ) (direction : ℤ)
    (f : ℕ → ℕ → ℕ → ℂ) : Option String × (ℕ → ℕ → ℕ → ℂ) :=
  stagedTransform g n0 n1 n2 (dftForward ζ0 ζ1 ζ2) (dftBackward ζ0 ζ1 ζ2) direction f

/-- `FFT<SineTransform,Dim,T>::transform` (FFT.hpp lines 538-606): same
staging and direction dispatch on a real field; the sine backend transforms
are kept abstract (parameters `fwd`, `bwd`). -/
def transformSine (g n0 n1 n2 : ℕ)
    (fwd bwd : (Stage n0 n1 n2 → ℝ) → Stage n0 n1 n2 → ℝ)
    (direction : ℤ) (f : ℕ → ℕ → ℕ → ℝ) : Option String × (ℕ → ℕ → ℕ → ℝ) :=
  stagedTransform g n0 n1 n2 fwd bwd direction f

/-- `FFT<CosTransform,Dim,T>::transform` (FFT.hpp lines 704-772): identical
body to the sine transform. -/
def transformCos (g n0 n1 n2 : ℕ)
    (fwd bwd : (Stage n0 n1 n2 → ℝ) → Stage n0 n1 n2 → ℝ)
    (direction : ℤ) (f : ℕ → ℕ → ℕ → ℝ) : Option String × (ℕ → ℕ → ℕ → ℝ) :=
  stagedTransform g n0 n1 n2 fwd bwd direction f

/-- `FFT<RCTransform,Dim,T>::transform` (FFT.hpp lines 333-441): stages the
real field `f` and the complex field `fc`, dispatches on direction (forward
reads the `f` stage and writes the `fc` stage, backward the reverse; any
other direction throws before the copy-out loops), then writes both stages
back.  The backend r2c transforms are kept abstract. -/
def transformRC (gf nf0 nf1 nf2 gg ng0 ng1 ng2 : ℕ)
    (fwd : (Stage nf0 nf1 nf2 → ℝ) → Stage ng0 ng1 ng2 → ℂ)
    (bwd : (Stage ng0 ng1 ng2 → ℂ) → Stage nf0 nf1 nf2 → ℝ)
    (direction : ℤ) (f : ℕ → ℕ → ℕ → ℝ) (fc : ℕ → ℕ → ℕ → ℂ) :
    Option String × (ℕ → ℕ → ℕ → ℝ) × (ℕ → ℕ → ℕ → ℂ) :=
  let tempf := copyIn gf nf0 nf1 nf2 f
  let tempg := copyIn gg ng0 ng1 ng2 fc
  if direction = 1 then
    (none, copyOut gf nf0 nf1 nf2 tempf f,
      copyOut gg ng0 ng1 ng2 (fwd tempf) fc)
  else if direction = -1 then
    (none, copyOut gf nf0 nf1 nf2 (bwd tempg) f,
      copyOut gg ng0 ng1 ng2 tempg fc)
  else
    (some "Only 1:forward and -1:backward are allowed as directions", f, fc)

/-! ## FieldSolver (FieldSolver.hpp) -/

/-- The alternatives a `Solver_t` variant can hold after an `emplace`. -/
inductive SolverKind : Type
  | cg
  | fft
  | p3m
  | open_bc
  deriving DecidableEq, Repr

/-- Modelled from the spec: the `Solver_t` `std::variant` is declared outside
the sources; a solver object that was never `emplace`d is embedded as
`none`, and `std::get<S>` on a variant not holding `S` raises
`bad_variant_access`, matching the spec policy that a failed `initialize`
leaves the object outside the PLANNED state. -/
structure FieldSolverState : Type where
  stype : String
  solver : Option SolverKind
  deriving DecidableEq, Repr

/-- `FieldSolver::initSolver` (FieldSolver.hpp lines 28-42): only the string
"FFT" constructs a solver (the CG/P3M/OPEN branches are commented out);
every other string reports "No solver matches the argument" and constructs
nothing. -/
def initSolver (s : FieldSolverState) : FieldSolverState × Option String :=
  if s.stype = "FFT" then
    ({ s with solver := some .fft }, none)
  else
    (s, some "No solver matches the argument")

/-- `FieldSolver::runSolver` (FieldSolver.hpp lines 44-73): dispatch on the
solver-type string; each branch does `std::get` on the variant and calls
`solve`, and an unknown string throws `std::runtime_error("Unknown solver
type")`. -/
def runSolver (s : FieldSolverState) : Except String Unit :=
  if s.stype = "CG" then
    if s.solver = some .cg then .ok () else .error "bad_variant_access"
  else if s.stype = "FFT" then
    if s.solver = some .fft then .ok () else .error "bad_variant_access"
  else if s.stype = "P3M" then
    if s.solver = some .p3m then .ok () else .error "bad_variant_access"
  else if s.stype = "OPEN" then
    if s.solver = some .open_bc then .ok () else .error "bad_variant_access"
  else
    .error "Unknown solver type"

/-! ## CIC scatter and the PIC driver (LandauDampingManager.h, PIC.cpp) -/

/-- A position/momentum/field vector in three dimensions. -/
abbrev Vec3 : Type := ℝ × ℝ × ℝ

/-- A grid cell of a periodic `n0 × n1 × n2` layout: periodic boundary
conditions identify node `n` with node `0` per axis. -/
abbrev Cell3 (n0 n1 n2 : ℕ) : Type := ZMod n0 × ZMod n1 × ZMod n2

/-- One particle of the ensemble: charge `q` and the attributes `R`
(position), `P` (momentum) and `E` (gathered field) of
`ParticleContainer`. -/
structure Particle : Type where
  q : ℝ
  R : Vec3
  P : Vec3
  E : Vec3

/-- Modelled from the spec: the enclosing grid node of a coordinate `x` on
a mesh with spacing `h` (the CIC kernel `scatter` of the repository is not
among the sources; spec §4.6 gives the weights). -/
noncomputable def cicNode (h x : ℝ) : ℤ := ⌊x / h⌋

/-- Modelled from the spec: the fractional offset of `x` within its cell. -/
noncomputable def cicFrac (h x : ℝ) : ℝ := x / h - ⌊x / h⌋

/-- Modelled from the spec: the one-axis CIC weight of the particle at `x`
on the periodic node `c`: the node `⌊x/h⌋` receives `1 - frac` and the node
`⌊x/h⌋ + 1` receives `frac`; on a periodic axis of length `n` the two
contributions add when the nodes coincide. -/
noncomputable def cicWeight1 (n : ℕ) (h x : ℝ) (c : ZMod n) : ℝ :=
  (if c = (cicNode h x : ZMod n) then 1 - cicFrac h x else 0)
    + (if c = ((cicNode h x + 1 : ℤ) : ZMod n) then cicFrac h x else 0)

/-- Modelled from the spec: the charge the particle `(q, R)` deposits on
the cell `c`, the product of the per-axis CIC weights times `q`
(spec §4.6, `w_j = ∏_d (1 − |R_d/h_d − i_{j,d}|)`). -/
noncomputable def cicDeposit {n0 n1 n2 : ℕ} (hr : Vec3) (q : ℝ) (R : Vec3)
    (c : Cell3 n0 n1 n2) : ℝ :=
  q * cicWeight1 n0 hr.1 R.1 c.1 * cicWeight1 n1 hr.2.1 R.2.1 c.2.1 *
    cicWeight1 n2 hr.2.2 R.2.2 c.2.2

/-- Modelled from the spec: `ippl::scatter(q, rho, R)` accumulated into a
zeroed field: the sum of the deposits of all local particles on each
cell. -/
noncomputable def scatterField {n0 n1 n2 : ℕ} (hr : Vec3) (ps : List Particle)
    (c : Cell3 n0 n1 n2) : ℝ :=
  (ps.map fun p => cicDeposit hr p.q p.R c).sum

/-- The cell volume of `scatterCIC` (LandauDampingManager.h lines 305-306):
`std::reduce(hr.begin(), hr.end(), 1., std::multiplies<double>())`. -/
def cellVolume (hr : Vec3) : ℝ := hr.1 * hr.2.1 * hr.2.2

/-- The domain volume of `scatterCIC` (LandauDampingManager.h lines
311-314): `size *= rmax[d] - rmin[d]` over the three axes, starting from
`1`. -/
def domainVolume (rmin rmax : Vec3) : ℝ :=
  (rmax.1 - rmin.1) * (rmax.2.1 - rmin.2.1) * (rmax.2.2 - rmin.2.2)

/-- `LandauDampingManager::scatterCIC` (LandauDampingManager.h lines
283-317): clear `rho` to zero, scatter the particle charges into it,
divide every cell by the cell volume, and — when the field solver type
string is not "OPEN" — subtract the uniform background `Q/size` where
`size` is the domain volume. -/
noncomputable def scatterCIC {n0 n1 n2 : ℕ} (stype : String) (Qm : ℝ)
    (rmin rmax hr : Vec3) (ps : List Particle)
    (rhoInit : Cell3 n0 n1 n2 → ℝ) : Cell3 n0 n1 n2 → ℝ :=
  let rhoCleared : Cell3 n0 n1 n2 → ℝ := fun _ => 0
  let rhoScattered : Cell3 n0 n1 n2 → ℝ := fun c => rhoCleared c + scatterField hr ps c
  let rhoDensity : Cell3 n0 n1 n2 → ℝ := fun c => rhoScattered c / cellVolume hr
  if stype ≠ "OPEN" then
    fun c => rhoDensity c - Qm / domainVolume rmin rmax
  else
    rhoDensity

/-- The per-particle state the driver sees, plus the grid fields. -/
structure SimState (n0 n1 n2 : ℕ) : Type where
  particles : List Particle
  rho : Cell3 n0 n1 n2 → ℝ
  Ef : Cell3 n0 n1 n2 → Vec3

/-- One half-kick `pc->P = pc->P - 0.5 * dt_m * pc->E`
(LandauDampingManager.h lines 240 and 264). -/
def kick (dt : ℝ) (ps : List Particle) : List Particle :=
  ps.map fun p => { p with P := p.P - (0.5 * dt) • p.E }

/-- The drift `pc->R = pc->R + dt_m * pc->P` (LandauDampingManager.h line
243), applied after the half-kick has updated `P`. -/
def drift (dt : ℝ) (ps : List Particle) : List Particle :=
  ps.map fun p => { p with R := p.R + dt • p.P }

/-- `gatherCIC` (LandauDampingManager.h lines 275-281): every particle
gathers the field at its position; the CIC gather kernel is kept abstract
as `gatherAt`. -/
def gatherStep {n0 n1 n2 : ℕ} (gatherAt : (Cell3 n0 n1 n2 → Vec3) → Vec3 → Vec3)
    (Ef : Cell3 n0 n1 n2 → Vec3) (ps : List Particle) : List Particle :=
  ps.map fun p => { p with E := gatherAt Ef p.R }

/-- `LandauDampingManager::LeapFrogStep` (LandauDampingManager.h lines
226-265): half-kick, drift, particle redistribution (`pc->update()`, kept
abstract as `upd`), optional repartition when the load-balance test
triggers, charge scatter (`par2grid` = `scatterCIC`), field solve (kept
abstract as `solve`), field gather (`grid2par` = `gatherCIC`), final
half-kick. -/
noncomputable def LeapFrogStep {n0 n1 n2 : ℕ} (dt : ℝ)
    (upd rep : List Particle → List Particle) (balanceTriggers : Bool)
    (solve : (Cell3 n0 n1 n2 → ℝ) → Cell3 n0 n1 n2 → Vec3)
    (gatherAt : (Cell3 n0 n1 n2 → Vec3) → Vec3 → Vec3)
    (stype : String) (Qm : ℝ) (rmin rmax hr : Vec3)
    (s : SimState n0 n1 n2) : SimState n0 n1 n2 :=
  let ps1 := kick dt s.particles
  let ps2 := drift dt ps1
  let ps3 := upd ps2
  let ps4 := if balanceTriggers then rep ps3 else ps3
  let rhoNew := scatterCIC stype Qm rmin rmax hr ps4 s.rho
  let EfNew := solve rhoNew
  let ps5 := gatherStep gatherAt EfNew ps4
  let ps6 := kick dt ps5
  ⟨ps6, rhoNew, EfNew⟩

/-! ## Theorems -/

theorem isErr_map {ε α β : Type} (h : α → β) (x : Except ε α) :
    isErr (x.map h) = isErr x := by
  cases x <;> rfl

theorem resolveOptions_err_iff (defaults : PlanOptions) (ud up ur : Bool) (comm : ℤ) :
    isErr (resolveOptions defaults ud up ur comm) = true ↔
      ud = false ∧ comm ≠ a2a ∧ comm ≠ a2av ∧ comm ≠ p2p ∧ comm ≠ p2p_pl := by
  unfold resolveOptions
  by_cases hud : ud = false
  · simp only [hud, if_true, eq_self_iff_true, true_and]
    by_cases h1 : comm = a2a
    · simp [h1, a2a, a2av, p2p, p2p_pl, isErr]
    · by_cases h2 : comm = a2av
      · simp [h1, h2, a2a, a2av, p2p, p2p_pl, isErr]
      · by_cases h3 : comm = p2p
        · simp [h1, h2, h3, a2a, a2av, p2p, p2p_pl, isErr]
        · by_cases h4 : comm = p2p_pl
          · simp [h1, h2, h3, h4, a2a, a2av, p2p, p2p_pl, isErr]
          · simp [h1, h2, h3, h4, isErr]
  · simp [hud, isErr]

/-- C6: FFT plan construction raises the unknown-communication error iff
`use_heffte_defaults` is false and the `comm` key lies outside the
enumeration {a2a, a2av, p2p, p2p_pl}; when `use_heffte_defaults` is true the
`comm`, `use_pencils` and `use_reorder` keys are ignored (the plan is built
from the backend defaults whatever their values) and no error is raised. -/
theorem setup_unknown_comm_iff :
    ∀ (defaults : PlanOptions) (ud up ur : Bool) (comm : ℤ),
      (isErr (setupCC defaults ud up ur comm) = true ↔
        ud = false ∧ comm ≠ a2a ∧ comm ≠ a2av ∧ comm ≠ p2p ∧ comm ≠ p2p_pl) ∧
      (isErr (setupRC defaults ud up ur comm) = true ↔
        ud = false ∧ comm ≠ a2a ∧ comm ≠ a2av ∧ comm ≠ p2p ∧ comm ≠ p2p_pl) ∧
      (isErr (setupSine defaults ud up ur comm) = true ↔
        ud = false ∧ comm ≠ a2a ∧ comm ≠ a2av ∧ comm ≠ p2p ∧ comm ≠ p2p_pl) ∧
      (isErr (setupCos defaults ud up ur comm) = true ↔
        ud = false ∧ comm ≠ a2a ∧ comm ≠ a2av ∧ comm ≠ p2p ∧ comm ≠ p2p_pl) ∧
      setupCC defaults true up ur comm = .ok ⟨defaults, .world⟩ ∧
      setupRC defaults true up ur comm = .ok ⟨defaults, .self⟩ ∧
      setupSine defaults true up ur comm = .ok ⟨defaults, .world⟩ ∧
      setupCos defaults true up ur comm = .ok ⟨defaults, .world⟩ := by
  intro defaults ud up ur comm
  refine ⟨?_, ?_, ?_, ?_, ?_, ?_, ?_, ?_⟩
  · rw [setupCC, isErr_map]; exact resolveOptions_err_iff defaults ud up ur comm
  · rw [setupRC, isErr_map]; exact resolveOptions_err_iff defaults ud up ur comm
  · rw [setupSine, isErr_map]; exact resolveOptions_err_iff defaults ud up ur comm
  · rw [setupCos, isErr_map]; exact resolveOptions_err_iff defaults ud up ur comm
  · simp [setupCC, resolveOptions, Except.map]
  · simp [setupRC, resolveOptions, Except.map]
  · simp [setupSine, resolveOptions, Except.map]
  · simp [setupCos, resolveOptions, Except.map]

/-- C8: on every FFT plan construction the staging buffer is reallocated
only when its current size is smaller than the local domain size, the
workspace only when smaller than the backend workspace requirement, the
resulting capacity suffices for the request, and capacity never decreases —
also across any sequence of constructions on the retained buffers. -/
theorem fft_buffer_growth :
    ∀ cur need : ℕ,
      (cur ≤ tempFieldSize cur need ∧ need ≤ tempFieldSize cur need ∧
        (tempFieldSize cur need = cur ∨ cur < need)) ∧
      (cur ≤ workspaceSize cur need ∧ need ≤ workspaceSize cur need ∧
        (workspaceSize cur need = cur ∨ cur < need)) ∧
      (∀ needs : List ℕ, cur ≤ needs.foldl tempFieldSize cur) ∧
      (∀ needs : List ℕ, cur ≤ needs.foldl workspaceSize cur) := by
  have hgrow : ∀ cur need : ℕ, cur ≤ tempFieldSize cur need ∧
      need ≤ tempFieldSize cur need ∧ (tempFieldSize cur need = cur ∨ cur < need) := by
    intro cur need
    unfold tempFieldSize
    split <;> omega
  have hfold : ∀ (needs : List ℕ) (cur : ℕ), cur ≤ needs.foldl tempFieldSize cur := by
    intro needs
    induction needs with
    | nil => intro cur; exact le_refl cur
    | cons n ns ih =>
        intro cur
        exact le_trans (hgrow cur n).1 (ih (tempFieldSize cur n))
  intro cur need
  exact ⟨hgrow cur need, hgrow cur need, fun needs => hfold needs cur,
    fun needs => hfold needs cur⟩

/-- C10: the real-to-complex FFT plan is built over `MPI_COMM_SELF`, whose
rank set is the calling rank alone, while the complex-to-complex, sine and
cosine plans are built over the world communicator. -/
theorem rc_plan_comm_self :
    (∀ (defaults : PlanOptions) (ud up ur : Bool) (comm : ℤ) (plan : HefftePlan),
      (setupRC defaults ud up ur comm = .ok plan → plan.comm = .self) ∧
      (setupCC defaults ud up ur comm = .ok plan → plan.comm = .world) ∧
      (setupSine defaults ud up ur comm = .ok plan → plan.comm = .world) ∧
      (setupCos defaults ud up ur comm = .ok plan → plan.comm = .world)) ∧
    ∀ nRanks rank : ℕ, commRanks nRanks rank .self = {rank} := by
  constructor
  · intro defaults ud up ur comm plan
    refine ⟨?_, ?_, ?_, ?_⟩ <;>
      · intro h
        simp only [setupRC, setupCC, setupSine, setupCos, Except.map] at h
        cases hr : resolveOptions defaults ud up ur comm with
        | error e => rw [hr] at h; exact Except.noConfusion h
        | ok v => rw [hr] at h; injection h with h2; rw [← h2]
  · intro nRanks rank
    rfl

/-- C10 witness: a concrete r2c plan construction yields the self
communicator, and the rank set of the self communicator of rank 3 in an
8-rank world is {3}. -/
theorem rc_plan_comm_self_witness :
    HefftePlan.comm ⟨⟨true, true, .alltoall⟩, .self⟩ = CommTag.self ∧
    commRanks 8 3 .self = {3} :=
  ⟨(rc_plan_comm_self.1 ⟨true, true, .alltoall⟩ true true true 0
      ⟨⟨true, true, .alltoall⟩, .self⟩).1 rfl,
    rc_plan_comm_self.2 8 3⟩

/-- C7: for every solver-type string other than "FFT" (the only string
`initSolver` dispatches on), `initSolver` reports "No solver matches the
argument" and constructs no solver, and a subsequent `runSolver` on that
object raises an error — either the unknown-solver-type error or a
`bad_variant_access` from `std::get` on the never-emplaced variant — so no
later solve can succeed. -/
theorem initSolver_unknown_not_planned :
    ∀ stype : String, stype ≠ "FFT" →
      (initSolver ⟨stype, none⟩).2 = some "No solver matches the argument" ∧
      (initSolver ⟨stype, none⟩).1.solver = none ∧
      isErr (runSolver (initSolver ⟨stype, none⟩).1) = true := by
  intro stype h
  refine ⟨by simp [initSolver, h], by simp [initSolver, h], ?_⟩
  simp only [initSolver, h, if_neg, if_false]
  unfold runSolver
  by_cases h1 : stype = "CG"
  · simp [h1, isErr]
  · by_cases h2 : stype = "P3M"
    · simp [h1, h2, h, isErr]
    · by_cases h3 : stype = "OPEN"
      · simp [h1, h2, h3, h, isErr]
      · simp [h1, h2, h3, h, isErr]

/-- C7 witness: the string "CG" (whose init branch is commented out in the
source) fails initialization and every later `runSolver` errors. -/
theorem initSolver_unknown_not_planned_witness :
    (initSolver ⟨"CG", none⟩).2 = some "No solver matches the argument" ∧
    (initSolver ⟨"CG", none⟩).1.solver = none ∧
    isErr (runSolver (initSolver ⟨"CG", none⟩).1) = true :=
  initSolver_unknown_not_planned "CG" (by decide)

theorem copyOut_notInterior {α : Type} (g n0 n1 n2 : ℕ) (t : Stage n0 n1 n2 → α)
    (f : ℕ → ℕ → ℕ → α) (i j k : ℕ) (h : ¬ inInterior g n0 n1 n2 i j k) :
    copyOut g n0 n1 n2 t f i j k = f i j k :=
  dif_neg h

theorem copyIn_congr {α : Type} (g n0 n1 n2 : ℕ) (f f2 : ℕ → ℕ → ℕ → α)
    (h : ∀ i j k, inInterior g n0 n1 n2 i j k → f i j k = f2 i j k) :
    copyIn g n0 n1 n2 f = copyIn g n0 n1 n2 f2 := by
  funext a
  refine h _ _ _ ⟨?_, ?_, ?_, ?_, ?_, ?_⟩
  · omega
  · have := a.1.isLt; omega
  · omega
  · have := a.2.1.isLt; omega
  · omega
  · have := a.2.2.isLt; omega

/-- C5: every one of the four FFT `transform` member functions, called with
a direction outside {+1, −1}, raises the unknown-direction error and leaves
the field(s) passed to it unchanged; with direction +1 or −1 no direction
error is raised. -/
theorem transform_unknown_direction :
    (∀ (g n0 n1 n2 : ℕ) (ζ0 ζ1 ζ2 : ℂ)
      (fwdS bwdS fwdC bwdC : (Stage n0 n1 n2 → ℝ) → Stage n0 n1 n2 → ℝ)
      (d : ℤ) (f : ℕ → ℕ → ℕ → ℂ) (fr : ℕ → ℕ → ℕ → ℝ),
      (d ≠ 1 → d ≠ -1 →
        transformCC g n0 n1 n2 ζ0 ζ1 ζ2 d f =
          (some "Only 1:forward and -1:backward are allowed as directions", f) ∧
        transformSine g n0 n1 n2 fwdS bwdS d fr =
          (some "Only 1:forward and -1:backward are allowed as directions", fr) ∧
        transformCos g n0 n1 n2 fwdC bwdC d fr =
          (some "Only 1:forward and -1:backward are allowed as directions", fr)) ∧
      ((d = 1 ∨ d = -1) →
        (transformCC g n0 n1 n2 ζ0 ζ1 ζ2 d f).1 = none ∧
        (transformSine g n0 n1 n2 fwdS bwdS d fr).1 = none ∧
        (transformCos g n0 n1 n2 fwdC bwdC d fr).1 = none)) ∧
    ∀ (gf nf0 nf1 nf2 gg ng0 ng1 ng2 : ℕ)
      (fwdRC : (Stage nf0 nf1 nf2 → ℝ) → Stage ng0 ng1 ng2 → ℂ)
      (bwdRC : (Stage ng0 ng1 ng2 → ℂ) → Stage nf0 nf1 nf2 → ℝ)
      (d : ℤ) (fr : ℕ → ℕ → ℕ → ℝ) (fc : ℕ → ℕ → ℕ → ℂ),
      (d ≠ 1 → d ≠ -1 →
        transformRC gf nf0 nf1 nf2 gg ng0 ng1 ng2 fwdRC bwdRC d fr fc =
          (some "Only 1:forward and -1:backward are allowed as directions", fr, fc)) ∧
      ((d = 1 ∨ d = -1) →
        (transformRC gf nf0 nf1 nf2 gg ng0 ng1 ng2 fwdRC bwdRC d fr fc).1 = none) := by
  constructor
  · intro g n0 n1 n2 ζ0 ζ1 ζ2 fwdS bwdS fwdC bwdC d f fr
    constructor
    · intro h1 h2
      refine ⟨?_, ?_, ?_⟩ <;>
        simp [transformCC, transformSine, transformCos, stagedTransform, h1, h2]
    · rintro (rfl | rfl) <;>
        refine ⟨?_, ?_, ?_⟩ <;>
          simp [transformCC, transformSine, transformCos, stagedTransform]
  · intro gf nf0 nf1 nf2 gg ng0 ng1 ng2 fwdRC bwdRC d fr fc
    constructor
    · intro h1 h2
      simp [transformRC, h1, h2]
    · rintro (rfl | rfl) <;> simp [transformRC]

/-- C5 witness: direction 5 on concrete transforms errors and leaves the
fields unchanged. -/
theorem transform_unknown_direction_witness :
    transformCC 1 1 1 1 1 1 1 5 (fun _ _ _ => (0 : ℂ)) =
      (some "Only 1:forward and -1:backward are allowed as directions",
        fun _ _ _ => (0 : ℂ)) ∧
    transformRC 1 1 1 1 1 1 1 1 (fun _ _ => 0) (fun _ _ => 0) 5
        (fun _ _ _ => (0 : ℝ)) (fun _ _ _ => (0 : ℂ)) =
      (some "Only 1:forward and -1:backward are allowed as directions",
        (fun _ _ _ => (0 : ℝ)), fun _ _ _ => (0 : ℂ)) :=
  ⟨((transform_unknown_direction.1 1 1 1 1 1 1 1 id id id id 5
      (fun _ _ _ => (0 : ℂ)) (fun _ _ _ => (0 : ℝ))).1 (by decide) (by decide)).1,
   (transform_unknown_direction.2 1 1 1 1 1 1 1 1 (fun _ _ => 0) (fun _ _ => 0) 5
      (fun _ _ _ => (0 : ℝ)) (fun _ _ _ => (0 : ℂ))).1 (by decide) (by decide)⟩

/-- C9: an FFT transform call with a valid direction writes only the
interior cells — every cell outside the interior box keeps its previous
value — and reads only the interior cells: two input fields that agree on
the interior produce the same interior result.  This holds for the shared
in-place transform body (complex-to-complex, sine, cosine) and for both
fields of the real-to-complex transform. -/
theorem transform_interior_frame :
    (∀ {α : Type} (g n0 n1 n2 : ℕ)
      (fwd bwd : (Stage n0 n1 n2 → α) → Stage n0 n1 n2 → α) (d : ℤ)
      (f f2 : ℕ → ℕ → ℕ → α), d = 1 ∨ d = -1 →
      (∀ i j k, ¬ inInterior g n0 n1 n2 i j k →
        (stagedTransform g n0 n1 n2 fwd bwd d f).2 i j k = f i j k) ∧
      ((∀ i j k, inInterior g n0 n1 n2 i j k → f i j k = f2 i j k) →
        ∀ i j k, inInterior g n0 n1 n2 i j k →
          (stagedTransform g n0 n1 n2 fwd bwd d f).2 i j k =
            (stagedTransform g n0 n1 n2 fwd bwd d f2).2 i j k)) ∧
    ∀ (gf nf0 nf1 nf2 gg ng0 ng1 ng2 : ℕ)
      (fwdRC : (Stage nf0 nf1 nf2 → ℝ) → Stage ng0 ng1 ng2 → ℂ)
      (bwdRC : (Stage ng0 ng1 ng2 → ℂ) → Stage nf0 nf1 nf2 → ℝ)
      (d : ℤ) (fr : ℕ → ℕ → ℕ → ℝ) (fc : ℕ → ℕ → ℕ → ℂ), d = 1 ∨ d = -1 →
      (∀ i j k, ¬ inInterior gf nf0 nf1 nf2 i j k →
        (transformRC gf nf0 nf1 nf2 gg ng0 ng1 ng2 fwdRC bwdRC d fr fc).2.1 i j k
          = fr i j k) ∧
      (∀ i j k, ¬ inInterior gg ng0 ng1 ng2 i j k →
        (transformRC gf nf0 nf1 nf2 gg ng0 ng1 ng2 fwdRC bwdRC d fr fc).2.2 i j k
          = fc i j k) := by
  constructor
  · intro α g n0 n1 n2 fwd bwd d f f2 hd
    constructor
    · intro i j k h
      rcases hd with rfl | rfl <;>
        · simp only [stagedTransform, if_pos, if_neg, reduceIte]
          exact copyOut_notInterior g n0 n1 n2 _ f i j k h
    · intro hagree i j k h
      have hin : copyIn g n0 n1 n2 f = copyIn g n0 n1 n2 f2 :=
        copyIn_congr g n0 n1 n2 f f2 hagree
      have h2 : g ≤ i ∧ i < g + n0 ∧ g ≤ j ∧ j < g + n1 ∧ g ≤ k ∧ k < g + n2 := h
      rcases hd with rfl | rfl
      · simp only [stagedTransform, reduceIte, copyOut]
        rw [hin, dif_pos h2, dif_pos h2]
      · have hneg : ¬((-1 : ℤ) = 1) := by norm_num
        simp only [stagedTransform, copyOut, if_neg hneg, reduceIte]
        rw [hin, dif_pos h2, dif_pos h2]
  · intro gf nf0 nf1 nf2 gg ng0 ng1 ng2 fwdRC bwdRC d fr fc hd
    rcases hd with rfl | rfl <;>
      exact ⟨fun i j k h => by
          simp only [transformRC, reduceIte]
          exact copyOut_notInterior _ _ _ _ _ fr i j k h,
        fun i j k h => by
          simp only [transformRC, reduceIte]
          exact copyOut_notInterior _ _ _ _ _ fc i j k h⟩

/-- C9 witness: on a concrete 1×1×1 interior with ghost width 1, the ghost
cell (0,0,0) is preserved by a forward transform, and two fields agreeing
on the interior produce the same interior result. -/
theorem transform_interior_frame_witness :
    (stagedTransform 1 1 1 1 id id 1 (fun _ _ _ => (0 : ℝ))).2 0 0 0 =
      (fun _ _ _ => (0 : ℝ)) 0 0 0 ∧
    (stagedTransform 1 1 1 1 id id 1 (fun _ _ _ => (0 : ℝ))).2 1 1 1 =
      (stagedTransform 1 1 1 1 id id 1 (fun i j k => (i + j + k : ℝ) - 3)).2 1 1 1 :=
  ⟨(transform_interior_frame.1 1 1 1 1 id id 1 (fun _ _ _ => (0 : ℝ))
      (fun _ _ _ => (0 : ℝ)) (Or.inl rfl)).1 0 0 0 (by decide),
   (transform_interior_frame.1 1 1 1 1 id id 1 (fun _ _ _ => (0 : ℝ))
      (fun i j k => (i + j + k : ℝ) - 3) (Or.inl rfl)).2
      (by intro i j k h
          obtain ⟨h1, h2, h3, h4, h5, h6⟩ := h
          have hi : i = 1 := by omega
          have hj : j = 1 := by omega
          have hk : k = 1 := by omega
          subst hi; subst hj; subst hk
          norm_num)
      1 1 1 (by decide)⟩

/-- C1: `scatterCIC` ignores the previous contents of `rho` (clears it),
scatters the particle charges, divides every cell by the cell volume, and
subtracts the uniform background `Q/V` from every cell exactly when the
solver type is not "OPEN" (the driver builds an all-periodic layout and
rejects the "OPEN" solver, so non-"OPEN" coincides with periodic boundary
conditions); for the open case no background is subtracted. -/
theorem scatterCIC_steps :
    ∀ {n0 n1 n2 : ℕ} (stype : String) (Qm : ℝ) (rmin rmax hr : Vec3)
      (ps : List Particle) (rhoInit : Cell3 n0 n1 n2 → ℝ),
      (stype ≠ "OPEN" →
        scatterCIC stype Qm rmin rmax hr ps rhoInit =
          fun c => scatterField hr ps c / cellVolume hr - Qm / domainVolume rmin rmax) ∧
      (stype = "OPEN" →
        scatterCIC stype Qm rmin rmax hr ps rhoInit =
          fun c => scatterField hr ps c / cellVolume hr) := by
  intro n0 n1 n2 stype Qm rmin rmax hr ps rhoInit
  constructor
  · intro h
    simp [scatterCIC, h]
  · intro h
    simp [scatterCIC, h]

/-- C1 witness: at the driver's solver type "FFT" the background is
subtracted, and at "OPEN" it is not, on a concrete ensemble. -/
theorem scatterCIC_steps_witness :
    (@scatterCIC 1 1 1 "FFT" 1 (0, 0, 0) (1, 1, 1) (1, 1, 1) [] (fun _ => 0) =
      fun c => scatterField (1, 1, 1) [] c / cellVolume (1, 1, 1) - 1 / domainVolume (0, 0, 0) (1, 1, 1)) ∧
    (@scatterCIC 1 1 1 "OPEN" 1 (0, 0, 0) (1, 1, 1) (1, 1, 1) [] (fun _ => 0) =
      fun c => scatterField (1, 1, 1) [] c / cellVolume (1, 1, 1)) :=
  ⟨(scatterCIC_steps "FFT" 1 (0, 0, 0) (1, 1, 1) (1, 1, 1) [] (fun _ => 0)).1 (by decide),
   (scatterCIC_steps "OPEN" 1 (0, 0, 0) (1, 1, 1) (1, 1, 1) [] (fun _ => 0)).2 rfl⟩

theorem sum_cicWeight1 (n : ℕ) [NeZero n] (h x : ℝ) :
    ∑ c : ZMod n, cicWeight1 n h x c = 1 := by
  unfold cicWeight1
  rw [Finset.sum_add_distrib]
  simp [Finset.sum_ite_eq', Finset.mem_univ]

theorem sum_mul_weights {R : Type} [CommSemiring R] {M N : Type} [Fintype M] [Fintype N]
    (B : M → R) (C : N → R) :
    ∑ p : M × N, B p.1 * C p.2 = (∑ b, B b) * ∑ c, C c := by
  rw [Fintype.sum_prod_type, ← Finset.sum_mul_sum]

theorem sum_cicDeposit (n0 n1 n2 : ℕ) [NeZero n0] [NeZero n1] [NeZero n2]
    (hr : Vec3) (q : ℝ) (R : Vec3) :
    ∑ c : Cell3 n0 n1 n2, cicDeposit hr q R c = q := by
  have h1 : ∑ c : Cell3 n0 n1 n2, cicDeposit hr q R c
      = q * ∑ c : Cell3 n0 n1 n2, cicWeight1 n0 hr.1 R.1 c.1 *
          (cicWeight1 n1 hr.2.1 R.2.1 c.2.1 * cicWeight1 n2 hr.2.2 R.2.2 c.2.2) := by
    rw [Finset.mul_sum]
    exact Finset.sum_congr rfl fun c _ => by unfold cicDeposit; ring
  rw [h1, sum_mul_weights (cicWeight1 n0 hr.1 R.1)
      (fun c12 : ZMod n1 × ZMod n2 =>
        cicWeight1 n1 hr.2.1 R.2.1 c12.1 * cicWeight1 n2 hr.2.2 R.2.2 c12.2),
    sum_mul_weights (cicWeight1 n1 hr.2.1 R.2.1) (cicWeight1 n2 hr.2.2 R.2.2),
    sum_cicWeight1, sum_cicWeight1, sum_cicWeight1]
  ring

/-- C3: the CIC scatter conserves total charge exactly in real arithmetic:
for every particle ensemble on a periodic layout, the sum of the scattered
field over all grid cells equals the sum of the particle charges. -/
theorem scatter_conserves_charge :
    ∀ {n0 n1 n2 : ℕ} [NeZero n0] [NeZero n1] [NeZero n2] (hr : Vec3)
      (ps : List Particle),
      ∑ c : Cell3 n0 n1 n2, scatterField hr ps c = (ps.map Particle.q).sum := by
  intro n0 n1 n2 hn0 hn1 hn2 hr ps
  induction ps with
  | nil => simp [scatterField]
  | cons p ps ih =>
      have hsplit : ∀ c : Cell3 n0 n1 n2,
          scatterField hr (p :: ps) c = cicDeposit hr p.q p.R c + scatterField hr ps c :=
        fun c => by simp [scatterField]
      calc ∑ c : Cell3 n0 n1 n2, scatterField hr (p :: ps) c
          = ∑ c : Cell3 n0 n1 n2, (cicDeposit hr p.q p.R c + scatterField hr ps c) :=
            Finset.sum_congr rfl fun c _ => hsplit c
        _ = (∑ c : Cell3 n0 n1 n2, cicDeposit hr p.q p.R c) +
              ∑ c : Cell3 n0 n1 n2, scatterField hr ps c := Finset.sum_add_distrib
        _ = p.q + (ps.map Particle.q).sum := by
            rw [sum_cicDeposit, ih]
        _ = ((p :: ps).map Particle.q).sum := by simp

theorem sum_pow_eq_zero_of_ne_one {w : ℂ} {n : ℕ} (h1 : w ^ n = 1) (hw : w ≠ 1) :
    ∑ j ∈ Finset.range n, w ^ j = 0 := by
  have hgs := geom_sum_mul w n
  rw [h1, sub_self] at hgs
  rcases mul_eq_zero.mp hgs with h | h
  · exact h
  · exact absurd (sub_eq_zero.mp h) hw

theorem ortho1 {n : ℕ} {ζ : ℂ} (hζ : IsPrimitiveRoot ζ n) (a b : Fin n) :
    ∑ j : Fin n, (ζ ^ a.val * ζ⁻¹ ^ b.val) ^ j.val = if a = b then (n : ℂ) else 0 := by
  have hn : 0 < n := a.pos
  have hζn : ζ ^ n = 1 := hζ.pow_eq_one
  have hζ0 : ζ ≠ 0 := by
    intro h
    rw [h, zero_pow hn.ne'] at hζn
    exact zero_ne_one hζn
  have hwn : (ζ ^ a.val * ζ⁻¹ ^ b.val) ^ n = 1 := by
    rw [mul_pow, pow_right_comm, hζn, one_pow, pow_right_comm ζ⁻¹, inv_pow, hζn,
      inv_one, one_pow, mul_one]
  rw [Fin.sum_univ_eq_sum_range (fun j => (ζ ^ a.val * ζ⁻¹ ^ b.val) ^ j) n]
  by_cases hab : a = b
  · subst hab
    rw [if_pos rfl]
    have hone : ζ ^ a.val * (ζ ^ a.val)⁻¹ = 1 := mul_inv_cancel₀ (pow_ne_zero _ hζ0)
    simp [inv_pow, hone]
  · rw [if_neg hab]
    apply sum_pow_eq_zero_of_ne_one hwn
    intro hw1
    apply hab
    rw [inv_pow] at hw1
    exact Fin.ext (hζ.pow_inj a.isLt b.isLt
      ((mul_inv_eq_one₀ (pow_ne_zero _ hζ0)).mp hw1))

theorem ortho3core {n0 n1 n2 : ℕ} {ζ0 ζ1 ζ2 : ℂ} (h0 : IsPrimitiveRoot ζ0 n0)
    (h1 : IsPrimitiveRoot ζ1 n1) (h2 : IsPrimitiveRoot ζ2 n2)
    (a b : Stage n0 n1 n2) :
    ∑ j : Stage n0 n1 n2,
      (ζ0 ^ a.1.val * ζ0⁻¹ ^ b.1.val) ^ j.1.val *
        ((ζ1 ^ a.2.1.val * ζ1⁻¹ ^ b.2.1.val) ^ j.2.1.val *
          (ζ2 ^ a.2.2.val * ζ2⁻¹ ^ b.2.2.val) ^ j.2.2.val) =
      if a = b then ((n0 * n1 * n2 : ℕ) : ℂ) else 0 := by
  rw [sum_mul_weights (fun j0 : Fin n0 => (ζ0 ^ a.1.val * ζ0⁻¹ ^ b.1.val) ^ j0.val)
      (fun j12 : Fin n1 × Fin n2 =>
        (ζ1 ^ a.2.1.val * ζ1⁻¹ ^ b.2.1.val) ^ j12.1.val *
          (ζ2 ^ a.2.2.val * ζ2⁻¹ ^ b.2.2.val) ^ j12.2.val),
    sum_mul_weights (fun j1 : Fin n1 => (ζ1 ^ a.2.1.val * ζ1⁻¹ ^ b.2.1.val) ^ j1.val)
      (fun j2 : Fin n2 => (ζ2 ^ a.2.2.val * ζ2⁻¹ ^ b.2.2.val) ^ j2.val),
    ortho1 h0, ortho1 h1, ortho1 h2]
  by_cases e0 : a.1 = b.1 <;> by_cases e1 : a.2.1 = b.2.1 <;> by_cases e2 : a.2.2 = b.2.2 <;>
    simp [Prod.ext_iff, e0, e1, e2] <;> push_cast <;> ring

theorem ortho3F {n0 n1 n2 : ℕ} {ζ0 ζ1 ζ2 : ℂ} (h0 : IsPrimitiveRoot ζ0 n0)
    (h1 : IsPrimitiveRoot ζ1 n1) (h2 : IsPrimitiveRoot ζ2 n2)
    (k l : Stage n0 n1 n2) :
    ∑ j : Stage n0 n1 n2,
      (ζ0 ^ (j.1.val * k.1.val) * ζ1 ^ (j.2.1.val * k.2.1.val) *
          ζ2 ^ (j.2.2.val * k.2.2.val)) *
        (ζ0⁻¹ ^ (l.1.val * j.1.val) * ζ1⁻¹ ^ (l.2.1.val * j.2.1.val) *
          ζ2⁻¹ ^ (l.2.2.val * j.2.2.val)) =
      if k = l then ((n0 * n1 * n2 : ℕ) : ℂ) else 0 := by
  rw [← ortho3core h0 h1 h2 k l]
  exact Finset.sum_congr rfl fun j _ => by ring

theorem ortho3B {n0 n1 n2 : ℕ} {ζ0 ζ1 ζ2 : ℂ} (h0 : IsPrimitiveRoot ζ0 n0)
    (h1 : IsPrimitiveRoot ζ1 n1) (h2 : IsPrimitiveRoot ζ2 n2)
    (k l : Stage n0 n1 n2) :
    ∑ j : Stage n0 n1 n2,
      (ζ0⁻¹ ^ (j.1.val * k.1.val) * ζ1⁻¹ ^ (j.2.1.val * k.2.1.val) *
          ζ2⁻¹ ^ (j.2.2.val * k.2.2.val)) *
        (ζ0 ^ (l.1.val * j.1.val) * ζ1 ^ (l.2.1.val * j.2.1.val) *
          ζ2 ^ (l.2.2.val * j.2.2.val)) =
      if l = k then ((n0 * n1 * n2 : ℕ) : ℂ) else 0 := by
  rw [← ortho3core h0 h1 h2 l k]
  exact Finset.sum_congr rfl fun j _ => by ring

theorem dftBackward_dftForward {n0 n1 n2 : ℕ} {ζ0 ζ1 ζ2 : ℂ}
    (h0 : IsPrimitiveRoot ζ0 n0) (h1 : IsPrimitiveRoot ζ1 n1)
    (h2 : IsPrimitiveRoot ζ2 n2) (f : Stage n0 n1 n2 → ℂ) :
    dftBackward ζ0 ζ1 ζ2 (dftForward ζ0 ζ1 ζ2 f) = f := by
  funext k
  have hN : ((n0 * n1 * n2 : ℕ) : ℂ) ≠ 0 := by
    have hp : 0 < n0 * n1 * n2 := Nat.mul_pos (Nat.mul_pos k.1.pos k.2.1.pos) k.2.2.pos
    exact_mod_cast hp.ne'
  unfold dftBackward dftForward
  calc
    ∑ j : Stage n0 n1 n2,
        (ζ0 ^ (j.1.val * k.1.val) * ζ1 ^ (j.2.1.val * k.2.1.val) *
            ζ2 ^ (j.2.2.val * k.2.2.val)) *
          (((n0 * n1 * n2 : ℕ) : ℂ)⁻¹ *
            ∑ l : Stage n0 n1 n2,
              (ζ0⁻¹ ^ (l.1.val * j.1.val) * ζ1⁻¹ ^ (l.2.1.val * j.2.1.val) *
                  ζ2⁻¹ ^ (l.2.2.val * j.2.2.val)) * f l)
      = ∑ j : Stage n0 n1 n2, ∑ l : Stage n0 n1 n2,
          ((n0 * n1 * n2 : ℕ) : ℂ)⁻¹ *
            (((ζ0 ^ (j.1.val * k.1.val) * ζ1 ^ (j.2.1.val * k.2.1.val) *
                ζ2 ^ (j.2.2.val * k.2.2.val)) *
              (ζ0⁻¹ ^ (l.1.val * j.1.val) * ζ1⁻¹ ^ (l.2.1.val * j.2.1.val) *
                ζ2⁻¹ ^ (l.2.2.val * j.2.2.val))) * f l) := by
        refine Finset.sum_congr rfl fun j _ => ?_
        rw [Finset.mul_sum, Finset.mul_sum]
        exact Finset.sum_congr rfl fun l _ => by ring
    _ = ∑ l : Stage n0 n1 n2, ∑ j : Stage n0 n1 n2,
          ((n0 * n1 * n2 : ℕ) : ℂ)⁻¹ *
            (((ζ0 ^ (j.1.val * k.1.val) * ζ1 ^ (j.2.1.val * k.2.1.val) *
                ζ2 ^ (j.2.2.val * k.2.2.val)) *
              (ζ0⁻¹ ^ (l.1.val * j.1.val) * ζ1⁻¹ ^ (l.2.1.val * j.2.1.val) *
                ζ2⁻¹ ^ (l.2.2.val * j.2.2.val))) * f l) := Finset.sum_comm
    _ = ∑ l : Stage n0 n1 n2,
          ((n0 * n1 * n2 : ℕ) : ℂ)⁻¹ * ((if k = l then ((n0 * n1 * n2 : ℕ) : ℂ) else 0) * f l) := by
        refine Finset.sum_congr rfl fun l _ => ?_
        rw [← Finset.mul_sum, ← Finset.sum_mul, ortho3F h0 h1 h2 k l]
    _ = ∑ l : Stage n0 n1 n2,
          (if k = l then ((n0 * n1 * n2 : ℕ) : ℂ)⁻¹ * (((n0 * n1 * n2 : ℕ) : ℂ) * f l) else 0) := by
        refine Finset.sum_congr rfl fun l _ => ?_
        by_cases hkl : k = l <;> simp [hkl]
    _ = ((n0 * n1 * n2 : ℕ) : ℂ)⁻¹ * (((n0 * n1 * n2 : ℕ) : ℂ) * f k) := by
        rw [Finset.sum_ite_eq Finset.univ k
          (fun l => ((n0 * n1 * n2 : ℕ) : ℂ)⁻¹ * (((n0 * n1 * n2 : ℕ) : ℂ) * f l))]
        simp
    _ = f k := by rw [← mul_assoc, inv_mul_cancel₀ hN, one_mul]

theorem dftForward_dftBackward {n0 n1 n2 : ℕ} {ζ0 ζ1 ζ2 : ℂ}
    (h0 : IsPrimitiveRoot ζ0 n0) (h1 : IsPrimitiveRoot ζ1 n1)
    (h2 : IsPrimitiveRoot ζ2 n2) (f : Stage n0 n1 n2 → ℂ) :
    dftForward ζ0 ζ1 ζ2 (dftBackward ζ0 ζ1 ζ2 f) = f := by
  funext k
  have hN : ((n0 * n1 * n2 : ℕ) : ℂ) ≠ 0 := by
    have hp : 0 < n0 * n1 * n2 := Nat.mul_pos (Nat.mul_pos k.1.pos k.2.1.pos) k.2.2.pos
    exact_mod_cast hp.ne'
  unfold dftBackward dftForward
  calc
    ((n0 * n1 * n2 : ℕ) : ℂ)⁻¹ *
        ∑ j : Stage n0 n1 n2,
          (ζ0⁻¹ ^ (j.1.val * k.1.val) * ζ1⁻¹ ^ (j.2.1.val * k.2.1.val) *
              ζ2⁻¹ ^ (j.2.2.val * k.2.2.val)) *
            ∑ l : Stage n0 n1 n2,
              (ζ0 ^ (l.1.val * j.1.val) * ζ1 ^ (l.2.1.val * j.2.1.val) *
                  ζ2 ^ (l.2.2.val * j.2.2.val)) * f l
      = ((n0 * n1 * n2 : ℕ) : ℂ)⁻¹ *
          ∑ j : Stage n0 n1 n2, ∑ l : Stage n0 n1 n2,
            ((ζ0⁻¹ ^ (j.1.val * k.1.val) * ζ1⁻¹ ^ (j.2.1.val * k.2.1.val) *
                ζ2⁻¹ ^ (j.2.2.val * k.2.2.val)) *
              (ζ0 ^ (l.1.val * j.1.val) * ζ1 ^ (l.2.1.val * j.2.1.val) *
                ζ2 ^ (l.2.2.val * j.2.2.val))) * f l := by
        refine congrArg _ (Finset.sum_congr rfl fun j _ => ?_)
        rw [Finset.mul_sum]
        exact Finset.sum_congr rfl fun l _ => by ring
    _ = ((n0 * n1 * n2 : ℕ) : ℂ)⁻¹ *
          ∑ l : Stage n0 n1 n2, ∑ j : Stage n0 n1 n2,
            ((ζ0⁻¹ ^ (j.1.val * k.1.val) * ζ1⁻¹ ^ (j.2.1.val * k.2.1.val) *
                ζ2⁻¹ ^ (j.2.2.val * k.2.2.val)) *
              (ζ0 ^ (l.1.val * j.1.val) * ζ1 ^ (l.2.1.val * j.2.1.val) *
                ζ2 ^ (l.2.2.val * j.2.2.val))) * f l := congrArg _ Finset.sum_comm
    _ = ((n0 * n1 * n2 : ℕ) : ℂ)⁻¹ *
          ∑ l : Stage n0 n1 n2, (if l = k then ((n0 * n1 * n2 : ℕ) : ℂ) else 0) * f l := by
        refine congrArg _ (Finset.sum_congr rfl fun l _ => ?_)
        rw [← Finset.sum_mul, ortho3B h0 h1 h2 k l]
    _ = ((n0 * n1 * n2 : ℕ) : ℂ)⁻¹ * (((n0 * n1 * n2 : ℕ) : ℂ) * f k) := by
        refine congrArg _ ?_
        calc
          ∑ l : Stage n0 n1 n2, (if l = k then ((n0 * n1 * n2 : ℕ) : ℂ) else 0) * f l
              = ∑ l : Stage n0 n1 n2,
                  (if l = k then ((n0 * n1 * n2 : ℕ) : ℂ) * f l else 0) := by
                refine Finset.sum_congr rfl fun l _ => ?_
                by_cases hlk : l = k <;> simp [hlk]
          _ = ((n0 * n1 * n2 : ℕ) : ℂ) * f k := by
                rw [Finset.sum_ite_eq' Finset.univ k
                  (fun l => ((n0 * n1 * n2 : ℕ) : ℂ) * f l)]
                simp
    _ = f k := by rw [← mul_assoc, inv_mul_cancel₀ hN, one_mul]

theorem copyIn_copyOut {α : Type} (g n0 n1 n2 : ℕ) (t : Stage n0 n1 n2 → α)
    (f : ℕ → ℕ → ℕ → α) :
    copyIn g n0 n1 n2 (copyOut g n0 n1 n2 t f) = t := by
  funext a
  have h : g ≤ g + a.1.val ∧ g + a.1.val < g + n0 ∧ g ≤ g + a.2.1.val ∧
      g + a.2.1.val < g + n1 ∧ g ≤ g + a.2.2.val ∧ g + a.2.2.val < g + n2 := by
    refine ⟨by omega, by have := a.1.isLt; omega, by omega,
      by have := a.2.1.isLt; omega, by omega, by have := a.2.2.isLt; omega⟩
  rw [copyIn, copyOut]
  rw [dif_pos h]
  congr 1
  refine Prod.ext ?_ (Prod.ext ?_ ?_)
  · exact Fin.ext (by simp)
  · exact Fin.ext (by simp)
  · exact Fin.ext (by simp)

theorem copyOut_copyIn {α : Type} (g n0 n1 n2 : ℕ) (f : ℕ → ℕ → ℕ → α)
    (fmid : ℕ → ℕ → ℕ → α)
    (hmid : ∀ i j k, ¬ inInterior g n0 n1 n2 i j k → fmid i j k = f i j k) :
    copyOut g n0 n1 n2 (copyIn g n0 n1 n2 f) fmid = f := by
  funext i j k
  by_cases h : inInterior g n0 n1 n2 i j k
  · have h2 : g ≤ i ∧ i < g + n0 ∧ g ≤ j ∧ j < g + n1 ∧ g ≤ k ∧ k < g + n2 := h
    rw [copyOut, dif_pos h2]
    dsimp only [copyIn]
    obtain ⟨hi1, hi2, hj1, hj2, hk1, hk2⟩ := h2
    have e1 : g + (i - g) = i := by omega
    have e2 : g + (j - g) = j := by omega
    have e3 : g + (k - g) = k := by omega
    rw [e1, e2, e3]
  · rw [copyOut_notInterior g n0 n1 n2 _ fmid i j k h]
    exact hmid i j k h

/-- C4: on one complex-to-complex plan (forward applying the 1/N
normalization, backward applying none), `transform` with direction +1
followed by direction −1 reproduces the field exactly — and so does −1
followed by +1 — in the exact-arithmetic model of the backend DFT (so the
1e-12 floating-point tolerance of the spec is met with error zero). -/
theorem fft_cc_roundtrip :
    ∀ (g n0 n1 n2 : ℕ) (ζ0 ζ1 ζ2 : ℂ), IsPrimitiveRoot ζ0 n0 →
      IsPrimitiveRoot ζ1 n1 → IsPrimitiveRoot ζ2 n2 →
      ∀ f : ℕ → ℕ → ℕ → ℂ,
        (transformCC g n0 n1 n2 ζ0 ζ1 ζ2 (-1)
          (transformCC g n0 n1 n2 ζ0 ζ1 ζ2 1 f).2).2 = f ∧
        (transformCC g n0 n1 n2 ζ0 ζ1 ζ2 1
          (transformCC g n0 n1 n2 ζ0 ζ1 ζ2 (-1) f).2).2 = f := by
  intro g n0 n1 n2 ζ0 ζ1 ζ2 h0 h1 h2 f
  have hneg : ¬((-1 : ℤ) = 1) := by norm_num
  constructor
  · simp only [transformCC, stagedTransform, reduceIte, if_neg hneg]
    rw [copyIn_copyOut, dftBackward_dftForward h0 h1 h2]
    exact copyOut_copyIn g n0 n1 n2 f _ fun i j k h =>
      copyOut_notInterior g n0 n1 n2 _ f i j k h
  · simp only [transformCC, stagedTransform, reduceIte, if_neg hneg]
    rw [copyIn_copyOut, dftForward_dftBackward h0 h1 h2]
    exact copyOut_copyIn g n0 n1 n2 f _ fun i j k h =>
      copyOut_notInterior g n0 n1 n2 _ f i j k h

/-- C4 witness: the roundtrip at a concrete plan (sizes 1×1×1, primitive
first roots of unity) and a concrete field. -/
theorem fft_cc_roundtrip_witness :
    (transformCC 1 1 1 1 1 1 1 (-1)
      (transformCC 1 1 1 1 1 1 1 1 (fun (i j k : ℕ) => ((i + 2 * j + 3 * k : ℕ) : ℂ))).2).2 =
      fun (i j k : ℕ) => ((i + 2 * j + 3 * k : ℕ) : ℂ) :=
  (fft_cc_roundtrip 1 1 1 1 1 1 1 IsPrimitiveRoot.one IsPrimitiveRoot.one
    IsPrimitiveRoot.one (fun (i j k : ℕ) => ((i + 2 * j + 3 * k : ℕ) : ℂ))).1

/-- C3 witness: the unit-test instance — a 5×5×5 periodic grid, `h = 1/5`,
1000 particles of charge 0.5 — deposits a total of exactly 500. -/
theorem scatter_conserves_charge_witness :
    ∑ c : Cell3 5 5 5,
      scatterField (1 / 5, 1 / 5, 1 / 5)
        (List.replicate 1000 ⟨0.5, (0.3, 0.4, 0.5), (0, 0, 0), (0, 0, 0)⟩) c = 500 := by
  rw [scatter_conserves_charge (1 / 5, 1 / 5, 1 / 5)
    (List.replicate 1000 ⟨0.5, (0.3, 0.4, 0.5), (0, 0, 0), (0, 0, 0)⟩)]
  simp only [List.map_replicate, List.sum_replicate, nsmul_eq_mul]
  norm_num

/-- C2: one leapfrog step performs, in order: half-kick
`P := P − ½·dt·E_p`, drift `R := R + dt·P` (with the freshly kicked `P`),
particle redistribution (`update`), optional repartition when the balance
test triggers, charge scatter with density conversion and background
subtraction (`scatterCIC`), Poisson solve for `E`, gather of `E` to the
particles, and the final half-kick `P := P − ½·dt·E_p` with the gathered
field.  The first block states the pipeline structure for arbitrary
redistribution/repartition; the second gives the closed per-particle
formulas on a single-rank run (`upd = id`, no repartition). -/
theorem LeapFrogStep_order :
    (∀ {n0 n1 n2 : ℕ} (dt : ℝ) (upd rep : List Particle → List Particle)
      (bal : Bool) (solve : (Cell3 n0 n1 n2 → ℝ) → Cell3 n0 n1 n2 → Vec3)
      (gatherAt : (Cell3 n0 n1 n2 → Vec3) → Vec3 → Vec3)
      (stype : String) (Qm : ℝ) (rmin rmax hr : Vec3) (s : SimState n0 n1 n2),
      (LeapFrogStep dt upd rep bal solve gatherAt stype Qm rmin rmax hr s).rho =
        scatterCIC stype Qm rmin rmax hr
          (if bal then rep (upd (drift dt (kick dt s.particles)))
            else upd (drift dt (kick dt s.particles))) s.rho ∧
      (LeapFrogStep dt upd rep bal solve gatherAt stype Qm rmin rmax hr s).Ef =
        solve ((LeapFrogStep dt upd rep bal solve gatherAt stype Qm rmin rmax hr s).rho) ∧
      (LeapFrogStep dt upd rep bal solve gatherAt stype Qm rmin rmax hr s).particles =
        kick dt (gatherStep gatherAt
          ((LeapFrogStep dt upd rep bal solve gatherAt stype Qm rmin rmax hr s).Ef)
          (if bal then rep (upd (drift dt (kick dt s.particles)))
            else upd (drift dt (kick dt s.particles))))) ∧
    ∀ {n0 n1 n2 : ℕ} (dt : ℝ) (rep : List Particle → List Particle)
      (solve : (Cell3 n0 n1 n2 → ℝ) → Cell3 n0 n1 n2 → Vec3)
      (gatherAt : (Cell3 n0 n1 n2 → Vec3) → Vec3 → Vec3)
      (stype : String) (Qm : ℝ) (rmin rmax hr : Vec3) (s : SimState n0 n1 n2)
      (EfNew : Cell3 n0 n1 n2 → Vec3),
      EfNew = solve (scatterCIC stype Qm rmin rmax hr
        (drift dt (kick dt s.particles)) s.rho) →
      (LeapFrogStep dt id rep false solve gatherAt stype Qm rmin rmax hr s).particles =
        s.particles.map fun p =>
          ⟨p.q,
            p.R + dt • (p.P - (0.5 * dt) • p.E),
            (p.P - (0.5 * dt) • p.E) -
              (0.5 * dt) • gatherAt EfNew (p.R + dt • (p.P - (0.5 * dt) • p.E)),
            gatherAt EfNew (p.R + dt • (p.P - (0.5 * dt) • p.E))⟩ := by
  constructor
  · intro n0 n1 n2 dt upd rep bal solve gatherAt stype Qm rmin rmax hr s
    exact ⟨rfl, rfl, rfl⟩
  · intro n0 n1 n2 dt rep solve gatherAt stype Qm rmin rmax hr s EfNew hEf
    subst hEf
    simp only [LeapFrogStep, kick, drift, gatherStep, id_eq, Bool.false_eq_true,
      if_false, List.map_map, Function.comp]
    rfl

/-- C2 witness: the single-rank pipeline at concrete inputs. -/
theorem LeapFrogStep_order_witness :
    (@LeapFrogStep 1 1 1 1 id id false
      (fun _ _ => ((0 : ℝ), (0 : ℝ), (0 : ℝ))) (fun _ _ => ((0 : ℝ), (0 : ℝ), (0 : ℝ)))
      "FFT" 1 (0, 0, 0) (1, 1, 1) (1, 1, 1)
      ⟨[], fun _ => 0, fun _ => (0, 0, 0)⟩).particles = [] :=
  LeapFrogStep_order.2 1 id (fun _ _ => ((0 : ℝ), (0 : ℝ), (0 : ℝ)))
    (fun _ _ => ((0 : ℝ), (0 : ℝ), (0 : ℝ))) "FFT" 1 (0, 0, 0) (1, 1, 1) (1, 1, 1)
    ⟨[], fun _ => 0, fun _ => (0, 0, 0)⟩ _ rfl

end ippl
